import Mathlib

/-!
Shallow embedding of the LDAP authentication-plugin connection pool
(plugin/auth_ldap/src/pool.cc) and proofs about its claimed behaviour.

The pool owns a dynamic bitset of in-use flags (bs_used_), a vector of
reference-counted Connection handles (v_connections_), the pool sizes and the
shared endpoint configuration.  All pool operations run under one mutex, so
each C++ member function is modelled as a pure state transformer on PoolState.
Network activity (Connection::connect) is external input and is modelled by a
boolean oracle argument giving the outcome of the one connect attempt a call
can make; detached background zombie_control threads are fire-and-forget, so a
call that spawns one only reports that fact (return_connection returns the
trigger decision as a Bool) and the sweep itself is a separate operation.

The Connection class itself is not part of the sources (only pool.cc is);
its handle-local operations are modelled from the spec's interface description
(mark_as_busy / mark_as_free / mark_as_snipped / is_snipped / is_zombie /
get_idx_pool / configure): a record with an immutable pool index, the six
configure parameters, and the busy / snipped / zombie flags.
-/

namespace AuthLdapPool

/-- In-place update of one list element, mirroring a C++ `v[i] = f(v[i])`
through a vector or through the shared_ptr alias held in the vector.
Out-of-range indices leave the list unchanged. -/
def listModify {α : Type} (f : α → α) : Nat → List α → List α
  | _, [] => []
  | 0, a :: l => f a :: l
  | n + 1, a :: l => a :: listModify f n l

/-- `std::vector::resize` / `boost::dynamic_bitset::resize`: truncate to `n`
elements, or pad at the end with `d` (value-initialised element / zero bit)
up to length `n`, preserving the lower-index entries. -/
def listResize {α : Type} (l : List α) (n : Nat) (d : α) : List α :=
  l.take n ++ List.replicate (n - l.length) d

/-- The C++ loop `for (i = lo; i < lo + n; i++) s = body(i, s)`. -/
def forRangeAux {σ : Type} (body : Nat → σ → σ) : Nat → Nat → σ → σ
  | _, 0, s => s
  | lo, n + 1, s => forRangeAux body (lo + 1) n (body lo s)

/-- `bs_used_.test i` (all call sites keep `i` below the bitset size; reading
an out-of-range index as an unset bit keeps the model total). -/
def bsTest (bs : List Bool) (i : Nat) : Bool := bs.getD i false

/-- `bs_used_.count()`: number of set bits. -/
def bsCount (bs : List Bool) : Nat := bs.count true

/-- `bs_used_.all()`: every bit set (true for the empty bitset). -/
def bsAll (bs : List Bool) : Bool := bs.all id

/-- The six connection parameters taken by `Connection::Connection` (after the
index) and by `Connection::configure`. -/
structure LdapConfig where
  ldap_host : String
  ldap_port : Nat
  fallback_host : String
  fallback_port : Nat
  use_ssl : Bool
  use_tls : Bool
deriving DecidableEq

/-- Modelled from the spec: the Connection handle capability (connection.cc is
outside the given sources).  `idx_pool` is the slot index, assigned once at
construction and immutable; `busy`, `snipped` and `zombie` are the handle-local
status flags the pool reads and writes through the interface of spec section 6. -/
structure Connection where
  idx_pool : Nat
  cfg : LdapConfig
  busy : Bool
  snipped : Bool
  zombie : Bool
deriving DecidableEq

/-- `Connection::mark_as_busy()`. -/
def conn_mark_as_busy (c : Connection) : Connection := { c with busy := true }

/-- `Connection::mark_as_free()`. -/
def conn_mark_as_free (c : Connection) : Connection := { c with busy := false }

/-- `Connection::mark_as_snipped()` (one-way flag). -/
def conn_mark_as_snipped (c : Connection) : Connection := { c with snipped := true }

/-- `std::make_shared<Connection>(i, host, port, fb_host, fb_port, ssl, tls)`:
a fresh handle, neither busy nor snipped nor zombie. -/
def newConnection (i : Nat) (c : LdapConfig) : Connection :=
  { idx_pool := i, cfg := c, busy := false, snipped := false, zombie := false }

/-- Placeholder for a value-initialised (null) `shared_ptr` slot; only ever
produced transiently by `resize` before the grow loop overwrites it, and used
as the default for total indexing. -/
def defaultConnection : Connection :=
  { idx_pool := 0
    cfg := { ldap_host := r"", ldap_port := 0, fallback_host := r"", fallback_port := 0, use_ssl := false, use_tls := false }
    busy := false
    snipped := false
    zombie := false }

/-- The mutex-guarded state of `Pool`. -/
structure PoolState where
  pool_initial_size : Nat
  pool_max_size : Nat
  bs_used : List Bool
  v_connections : List Connection
  cfg : LdapConfig
  ca_path : String
  bind_dn : String
  bind_pwd : String
  group_role_mapping : List (String × String)
deriving DecidableEq

/-- `v_connections_[i]` (total indexing; all call sites keep `i` in range). -/
def connAt (st : PoolState) (i : Nat) : Connection :=
  st.v_connections.getD i defaultConnection

/-- Pool::Pool: sizes and configuration stored, bitset and vector resized to
`pool_max_size` and every slot filled with a fresh handle tagged with its
index.  The eager `connect` of the first `pool_initial_size` handles is
external network activity whose outcome is discarded (failure is not fatal),
so it leaves no trace in the model; the global LDAP parameter initialisation
is process-wide external state outside the pool. -/
def mkPool (pool_initial_size pool_max_size : Nat) (c : LdapConfig)
    (ca dn pw : String) : PoolState :=
  { pool_initial_size := pool_initial_size
    pool_max_size := pool_max_size
    bs_used := List.replicate pool_max_size false
    v_connections := (List.range pool_max_size).map (fun i => newConnection i c)
    cfg := c
    ca_path := ca
    bind_dn := dn
    bind_pwd := pw
    group_role_mapping := [] }

/-- Pool::mark_as_busy (requires holding the lock): `bs_used_.set(idx, true)`. -/
def mark_as_busy (st : PoolState) (idx : Nat) : PoolState :=
  { st with bs_used := st.bs_used.set idx true }

/-- Pool::mark_as_free (requires holding the lock):
`if (bs_used_.size() > idx) bs_used_.set(idx, false);`. -/
def mark_as_free (st : PoolState) (idx : Nat) : PoolState :=
  if st.bs_used.length > idx then { st with bs_used := st.bs_used.set idx false }
  else st

/-- The scan loop of Pool::find_first_free:
`for (i = 0; i < pool_max_size_; i++) if (!bs_used_.test(i)) return i` with
start index `i` and `n` iterations left; `none` is the C++ sentinel `-1`. -/
def findFreeAux (st : PoolState) : Nat → Nat → Option Nat
  | _, 0 => none
  | i, n + 1 =>
    if bsTest st.bs_used i = false then some i else findFreeAux st (i + 1) n

/-- Pool::find_first_free: fast-exit `-1` when `bs_used_.all()`, otherwise the
linear scan for the lowest unset bit (`none` is the C++ sentinel `-1`). -/
def find_first_free (st : PoolState) : Option Nat :=
  if bsAll st.bs_used then none else findFreeAux st 0 st.pool_max_size

/-- Pool::get_connection (requires holding the lock).  `connectOk` is the
outcome of the `conn->connect(bind_dn_, bind_pwd_, auth_resp)` attempt, which
is external network I/O.  On `default_connect` with a failed connect the call
returns null; otherwise the handle is marked busy — through the shared_ptr
alias this also updates the slot entry — and returned. -/
def get_connection (st : PoolState) (idx : Nat) (default_connect connectOk : Bool) :
    PoolState × Option Connection :=
  if default_connect && !connectOk then
    (st, none)
  else
    ({ st with v_connections := listModify conn_mark_as_busy idx st.v_connections },
     some (conn_mark_as_busy (connAt st idx)))

/-- Pool::borrow_connection (whole call under the lock).  On exhaustion the
call logs, spawns a detached zombie_control thread (fire-and-forget, not part
of this call's state change) and returns null.  Otherwise the chosen bit is
set busy before the connect attempt, and cleared again if the connect fails. -/
def borrow_connection (st : PoolState) (default_connect connectOk : Bool) :
    PoolState × Option Connection :=
  match find_first_free st with
  | none => (st, none)
  | some idx =>
    let st1 := mark_as_busy st idx
    match get_connection st1 idx default_connect connectOk with
    | (st2, none) => (mark_as_free st2 idx, none)
    | (st2, some c) => (st2, some c)

/-- `std::ceil(pool_max_size_ * 0.9)` from Pool::return_connection, as the
exact ceiling of `9 * n / 10`.  For every feasible pool size the double
computation rounds to the same integer: the relative excess of the binary
representation of 0.9 (about 2.5e-17) is far below both the 1/10 gap to the
next integer when `9 * n / 10` is fractional and a half ulp when it is exact. -/
def zombieThreshold (n : Nat) : Nat := (9 * n + 9) / 10

/-- Pool::return_connection.  The handle is first marked free (handle-local;
for a non-snipped handle the pool's slot entry is the same object through the
shared_ptr alias, for a snipped handle the shrink that snipped it already
erased the pool-side reference, so no pool state is touched).  A snipped
handle is then simply dropped.  Otherwise the handle's bit is cleared under
the lock (defensively bounds-checked by mark_as_free) and, if occupancy is
still at least 90% of capacity, a detached zombie_control thread is spawned;
the returned Bool reports that trigger decision. -/
def return_connection (st : PoolState) (conn : Connection) : PoolState × Bool :=
  if conn.snipped then
    (st, false)
  else
    let st1 := { st with
      v_connections := listModify conn_mark_as_free conn.idx_pool st.v_connections }
    let st2 := mark_as_free st1 conn.idx_pool
    (st2, decide (zombieThreshold st2.pool_max_size ≤ bsCount st2.bs_used))

/-- One iteration of the Pool::zombie_control loop:
`if (bs_used_.test(i) && v_connections_[i]->is_zombie())
   { v_connections_[i]->mark_as_free(); mark_as_free(i); }`. -/
def zombieStep (i : Nat) (st : PoolState) : PoolState :=
  if bsTest st.bs_used i && (connAt st i).zombie then
    mark_as_free
      { st with v_connections := listModify conn_mark_as_free i st.v_connections } i
  else st

/-- Pool::zombie_control (whole loop under the lock). -/
def zombie_control (st : PoolState) : PoolState :=
  forRangeAux zombieStep 0 st.pool_max_size st

/-- The shrink loop of Pool::reconfigure:
`for (i = lo; i < hi; i++) v_connections_[i]->mark_as_snipped();`. -/
def markSnippedRange (lo hi : Nat) (v : List Connection) : List Connection :=
  forRangeAux (fun i w => listModify conn_mark_as_snipped i w) lo (hi - lo) v

/-- Pool::reconfigure: force a synchronous zombie sweep, then under the lock
resize the bitset, snip the to-be-dropped slots on a shrink, resize the
vector, construct fresh handles for the new indices on a grow, commit the new
maximum, replace the stored configuration, and reconfigure every slot with the
new parameters.  The `connect` calls of the two reconnect passes are external
network activity with discarded outcomes, so they leave no trace in the model. -/
def reconfigure (st : PoolState) (newpool_initial_size newpool_max_size : Nat)
    (c : LdapConfig) (ca dn pw : String) : PoolState :=
  let st1 := zombie_control st
  let st2 :=
    if newpool_max_size ≠ st1.pool_max_size then
      let bs := listResize st1.bs_used newpool_max_size false
      let v :=
        if newpool_max_size < st1.pool_max_size then
          markSnippedRange newpool_max_size st1.pool_max_size st1.v_connections
        else st1.v_connections
      let v := listResize v newpool_max_size defaultConnection
      let v :=
        if st1.pool_max_size < newpool_max_size then
          forRangeAux (fun i w => w.set i (newConnection i c)) st1.pool_max_size
            (newpool_max_size - st1.pool_max_size) v
        else v
      { st1 with bs_used := bs, v_connections := v, pool_max_size := newpool_max_size }
    else st1
  let st3 :=
    { st2 with
      cfg := c
      ca_path := ca
      pool_initial_size := newpool_initial_size
      bind_dn := dn
      bind_pwd := pw }
  { st3 with
    v_connections :=
      forRangeAux (fun i w => listModify (fun cc => { cc with cfg := c }) i w) 0
        st3.pool_max_size st3.v_connections }

/-- `boost::algorithm::split(out, s, boost::is_any_of(sep))` for a single
separator character: cut at every occurrence, keeping empty tokens; the empty
input yields one empty token. -/
def splitOnChar (sep : Char) : List Char → List (List Char)
  | [] => [[]]
  | c :: cs =>
    match splitOnChar sep cs with
    | [] => [[]]
    | t :: ts => if c = sep then [] :: t :: ts else (c :: t) :: ts

/-- String wrapper for splitOnChar. -/
def splitStr (sep : Char) (s : String) : List String :=
  (splitOnChar sep s.data).map String.mk

/-- `group_role_mapping_[k] = v` on a `std::map` viewed extensionally as an
association list: replace the value of an existing key, else add the pair. -/
def mapAssign (m : List (String × String)) (k v : String) : List (String × String) :=
  match m with
  | [] => [(k, v)]
  | (k', v') :: rest =>
    if k' = k then (k, v) :: rest else (k', v') :: mapAssign rest k v

/-- Pool::reset_group_role_mapping: clear the map, split the input on every
comma, split each entry on every equals sign; a one-field entry maps the whole
entry to itself, otherwise field 0 maps to field 1 (later fields are unused). -/
def reset_group_role_mapping (mapping : String) : List (String × String) :=
  (splitStr ',' mapping).foldl
    (fun acc role =>
      let r := splitStr '=' role
      if r.length = 1 then mapAssign acc role role
      else mapAssign acc (r.getD 0 (r"")) (r.getD 1 (r"")))
    []

/-- Cut a character list at the first occurrence of `sep`: `none` when `sep`
does not occur. -/
def breakAtChar (sep : Char) : List Char → Option (List Char × List Char)
  | [] => none
  | c :: cs =>
    if c = sep then some ([], cs)
    else
      match breakAtChar sep cs with
      | none => none
      | some (a, b) => some (c :: a, b)

/-- Modelled from the claim's words, for comparison with the code: each entry
is split on the FIRST equals sign into group and role; a bare entry maps to
itself. -/
def resetGroupRoleMappingSpecFirst (mapping : String) : List (String × String) :=
  (splitStr ',' mapping).foldl
    (fun acc role =>
      match breakAtChar '=' role.data with
      | none => mapAssign acc role role
      | some (g, r) => mapAssign acc (String.mk g) (String.mk r))
    []

/-- The well-formedness invariant of spec section 3:
`used.length == slots.length == max_size`. -/
def poolInv (st : PoolState) : Prop :=
  st.bs_used.length = st.pool_max_size ∧
  st.v_connections.length = st.pool_max_size

instance poolInvDecidable (st : PoolState) : Decidable (poolInv st) :=
  inferInstanceAs (Decidable (st.bs_used.length = st.pool_max_size ∧
    st.v_connections.length = st.pool_max_size))

/-- One mutex-serialised pool operation, for statements about operation
sequences. -/
inductive PoolOp where
  | borrow (default_connect connectOk : Bool)
  | ret (c : Connection)
  | reconfig (newInit newMax : Nat) (c : LdapConfig) (ca dn pw : String)
  | zombie

/-- Apply one operation to the pool state. -/
def applyOp (st : PoolState) : PoolOp → PoolState
  | PoolOp.borrow d ok => (borrow_connection st d ok).1
  | PoolOp.ret c => (return_connection st c).1
  | PoolOp.reconfig ni nm c ca dn pw => reconfigure st ni nm c ca dn pw
  | PoolOp.zombie => zombie_control st

/-- Apply a sequence of operations, oldest first. -/
def applyOps (st : PoolState) (ops : List PoolOp) : PoolState :=
  ops.foldl applyOp st

/-- Example configuration for concrete witnesses. -/
def exCfg : LdapConfig :=
  { ldap_host := r"ldap1", ldap_port := 389, fallback_host := r"ldap2", fallback_port := 390, use_ssl := false, use_tls := false }

/-- Example two-slot pool fresh from construction. -/
def exPool : PoolState := mkPool 1 2 exCfg (r"ca") (r"dn") (r"pw")

/-- Example pool with every slot in use. -/
def exPoolFull : PoolState := { exPool with bs_used := [true, true] }

/-- Example pool whose busy slot 0 holds a zombie connection. -/
def exPoolZ : PoolState :=
  { exPool with
    bs_used := [true, false]
    v_connections := [{ newConnection 0 exCfg with busy := true, zombie := true }, newConnection 1 exCfg] }

/-- Example borrowed handle for slot 0. -/
def exConn : Connection := { newConnection 0 exCfg with busy := true }

/-- Example handle whose index is beyond the example pool's capacity. -/
def exConnFar : Connection := { newConnection 5 exCfg with busy := true }

/-- Example snipped handle. -/
def exConnSnipped : Connection := conn_mark_as_snipped exConn

/-- Example operation sequence. -/
def exOps : List PoolOp :=
  [PoolOp.borrow true true, PoolOp.borrow false true, PoolOp.ret exConn,
   PoolOp.zombie, PoolOp.reconfig 1 3 exCfg (r"ca2") (r"dn2") (r"pw2"),
   PoolOp.borrow true false]

/-! Basic facts about the list toolkit. -/

theorem getD_nil {α : Type} (j : Nat) (d : α) : ([] : List α).getD j d = d := by
  cases j <;> rfl

theorem getD_cons_zero {α : Type} (a : α) (l : List α) (d : α) :
    (a :: l).getD 0 d = a := rfl

theorem getD_cons_succ {α : Type} (a : α) (l : List α) (j : Nat) (d : α) :
    (a :: l).getD (j + 1) d = l.getD j d := rfl

theorem getD_oob {α : Type} :
    ∀ (l : List α) (j : Nat) (d : α), l.length ≤ j → l.getD j d = d := by
  intro l
  induction l with
  | nil => intro j d _; exact getD_nil j d
  | cons a t ih =>
    intro j d h
    cases j with
    | zero => simp at h
    | succ j' =>
      rw [getD_cons_succ]
      exact ih j' d (by simpa using h)

theorem getD_set_self {α : Type} :
    ∀ (l : List α) (i : Nat) (v d : α), i < l.length → (l.set i v).getD i d = v := by
  intro l
  induction l with
  | nil => intro i v d h; simp at h
  | cons a t ih =>
    intro i v d h
    cases i with
    | zero => rfl
    | succ i' =>
      show (t.set i' v).getD i' d = v
      exact ih i' v d (by simpa using h)

theorem getD_set_ne {α : Type} :
    ∀ (l : List α) (i j : Nat) (v d : α), i ≠ j → (l.set i v).getD j d = l.getD j d := by
  intro l
  induction l with
  | nil => intro i j v d _; rfl
  | cons a t ih =>
    intro i j v d hij
    cases i with
    | zero =>
      cases j with
      | zero => exact absurd rfl hij
      | succ j' => rfl
    | succ i' =>
      cases j with
      | zero => rfl
      | succ j' =>
        show (t.set i' v).getD j' d = t.getD j' d
        exact ih i' j' v d (fun h => hij (by rw [h]))

theorem set_oob {α : Type} :
    ∀ (l : List α) (i : Nat) (v : α), l.length ≤ i → l.set i v = l := by
  intro l
  induction l with
  | nil => intro i v _; rfl
  | cons a t ih =>
    intro i v h
    cases i with
    | zero => simp at h
    | succ i' =>
      show a :: t.set i' v = a :: t
      rw [ih i' v (by simpa using h)]

theorem set_set_same {α : Type} :
    ∀ (l : List α) (i : Nat) (a b : α), (l.set i a).set i b = l.set i b := by
  intro l
  induction l with
  | nil => intro i a b; rfl
  | cons x t ih =>
    intro i a b
    cases i with
    | zero => rfl
    | succ i' =>
      show x :: (t.set i' a).set i' b = x :: t.set i' b
      rw [ih]

theorem set_false_getD_false :
    ∀ (l : List Bool) (i : Nat), l.getD i false = false → l.set i false = l := by
  intro l
  induction l with
  | nil => intro i _; rfl
  | cons a t ih =>
    intro i h
    cases i with
    | zero => rw [getD_cons_zero] at h; rw [h]; rfl
    | succ i' =>
      rw [getD_cons_succ] at h
      show a :: t.set i' false = a :: t
      rw [ih i' h]

theorem length_listModify {α : Type} (f : α → α) :
    ∀ (i : Nat) (l : List α), (listModify f i l).length = l.length := by
  intro i l
  induction l generalizing i with
  | nil => cases i <;> rfl
  | cons a t ih => cases i <;> simp [listModify, ih]

theorem listModify_oob {α : Type} (f : α → α) :
    ∀ (l : List α) (i : Nat), l.length ≤ i → listModify f i l = l := by
  intro l
  induction l with
  | nil => intro i _; cases i <;> rfl
  | cons a t ih =>
    intro i h
    cases i with
    | zero => simp at h
    | succ i' => simp [listModify, ih i' (by simpa using h)]

theorem getD_listModify_self {α : Type} (f : α → α) :
    ∀ (l : List α) (i : Nat) (d : α), i < l.length →
      (listModify f i l).getD i d = f (l.getD i d) := by
  intro l
  induction l with
  | nil => intro i d h; simp at h
  | cons a t ih =>
    intro i d h
    cases i with
    | zero => rfl
    | succ i' =>
      simp only [listModify, getD_cons_succ]
      exact ih i' d (by simpa using h)

theorem getD_listModify_ne {α : Type} (f : α → α) :
    ∀ (l : List α) (i j : Nat) (d : α), i ≠ j →
      (listModify f i l).getD j d = l.getD j d := by
  intro l
  induction l with
  | nil => intro i j d _; cases i <;> rfl
  | cons a t ih =>
    intro i j d hij
    cases i with
    | zero =>
      cases j with
      | zero => exact absurd rfl hij
      | succ j' => rfl
    | succ i' =>
      cases j with
      | zero => rfl
      | succ j' =>
        simp only [listModify, getD_cons_succ]
        exact ih i' j' d (fun h => hij (by rw [h]))

theorem length_listResize {α : Type} (l : List α) (n : Nat) (d : α) :
    (listResize l n d).length = n := by
  simp [listResize]
  omega

theorem listResize_eq_take {α : Type} (l : List α) (n : Nat) (d : α)
    (h : n ≤ l.length) : listResize l n d = l.take n := by
  have : n - l.length = 0 := by omega
  simp [listResize, this]

theorem getD_take_lt {α : Type} :
    ∀ (l : List α) (n j : Nat) (d : α), j < n → (l.take n).getD j d = l.getD j d := by
  intro l
  induction l with
  | nil => intro n j d _; simp
  | cons a t ih =>
    intro n j d h
    cases n with
    | zero => omega
    | succ n' =>
      cases j with
      | zero => rfl
      | succ j' =>
        simp only [List.take_succ_cons, getD_cons_succ]
        exact ih n' j' d (by omega)

theorem getD_append_lt {α : Type} :
    ∀ (l1 l2 : List α) (j : Nat) (d : α), j < l1.length →
      (l1 ++ l2).getD j d = l1.getD j d := by
  intro l1
  induction l1 with
  | nil => intro l2 j d h; simp at h
  | cons a t ih =>
    intro l2 j d h
    cases j with
    | zero => rfl
    | succ j' =>
      simp only [List.cons_append, getD_cons_succ]
      exact ih l2 j' d (by simpa using h)

theorem getD_listResize_lt {α : Type} (l : List α) (n j : Nat) (d d' : α)
    (hjn : j < n) (hjl : j < l.length) :
    (listResize l n d).getD j d' = l.getD j d' := by
  unfold listResize
  rw [getD_append_lt]
  · exact getD_take_lt l n j d' hjn
  · simp; omega

/-! Pointwise characterisation of the C++ index loops. -/

theorem forRangeAux_modify_length {α : Type} (g : α → α) :
    ∀ (n lo : Nat) (l : List α),
      (forRangeAux (fun i v => listModify g i v) lo n l).length = l.length := by
  intro n
  induction n with
  | zero => intro lo l; rfl
  | succ n ih =>
    intro lo l
    show (forRangeAux (fun i v => listModify g i v) (lo + 1) n
      (listModify g lo l)).length = l.length
    rw [ih, length_listModify]

theorem forRangeAux_modify_getD {α : Type} (g : α → α) (d : α) :
    ∀ (n lo : Nat) (l : List α) (j : Nat),
      (forRangeAux (fun i v => listModify g i v) lo n l).getD j d =
        if lo ≤ j ∧ j < lo + n ∧ j < l.length then g (l.getD j d) else l.getD j d := by
  intro n
  induction n with
  | zero =>
    intro lo l j
    rw [if_neg (by omega)]
    rfl
  | succ n ih =>
    intro lo l j
    show (forRangeAux (fun i v => listModify g i v) (lo + 1) n
      (listModify g lo l)).getD j d = _
    rw [ih, length_listModify]
    by_cases hj : j = lo
    · subst hj
      rw [if_neg (by omega)]
      by_cases hl : j < l.length
      · rw [getD_listModify_self g l j d hl, if_pos ⟨Nat.le_refl j, by omega, hl⟩]
      · rw [listModify_oob g l j (by omega), if_neg (by omega)]
    · rw [getD_listModify_ne g l lo j d (fun h => hj h.symm)]
      by_cases hcond : lo + 1 ≤ j ∧ j < lo + 1 + n ∧ j < l.length
      · rw [if_pos hcond, if_pos ⟨by omega, by omega, hcond.2.2⟩]
      · rw [if_neg hcond, if_neg (by
          intro hc
          exact hcond ⟨by omega, by omega, hc.2.2⟩)]

theorem forRangeAux_set_length {α : Type} (h : Nat → α) :
    ∀ (n lo : Nat) (l : List α),
      (forRangeAux (fun i v => v.set i (h i)) lo n l).length = l.length := by
  intro n
  induction n with
  | zero => intro lo l; rfl
  | succ n ih =>
    intro lo l
    show (forRangeAux (fun i v => v.set i (h i)) (lo + 1) n
      (l.set lo (h lo))).length = l.length
    rw [ih, List.length_set]

theorem forRangeAux_set_getD {α : Type} (h : Nat → α) (d : α) :
    ∀ (n lo : Nat) (l : List α) (j : Nat),
      (forRangeAux (fun i v => v.set i (h i)) lo n l).getD j d =
        if lo ≤ j ∧ j < lo + n ∧ j < l.length then h j else l.getD j d := by
  intro n
  induction n with
  | zero =>
    intro lo l j
    rw [if_neg (by omega)]
    rfl
  | succ n ih =>
    intro lo l j
    show (forRangeAux (fun i v => v.set i (h i)) (lo + 1) n
      (l.set lo (h lo))).getD j d = _
    rw [ih, List.length_set]
    by_cases hj : j = lo
    · subst hj
      rw [if_neg (by omega)]
      by_cases hl : j < l.length
      · rw [getD_set_self l j (h j) d hl, if_pos ⟨Nat.le_refl j, by omega, hl⟩]
      · rw [set_oob l j (h j) (by omega), if_neg (by omega)]
    · rw [getD_set_ne l lo j (h lo) d (fun hx => hj hx.symm)]
      by_cases hcond : lo + 1 ≤ j ∧ j < lo + 1 + n ∧ j < l.length
      · rw [if_pos hcond, if_pos ⟨by omega, by omega, hcond.2.2⟩]
      · rw [if_neg hcond, if_neg (by
          intro hc
          exact hcond ⟨by omega, by omega, hc.2.2⟩)]

/-! Facts about the free-slot scan and the bitset. -/

theorem bsTest_true_lt (bs : List Bool) (i : Nat) (h : bsTest bs i = true) :
    i < bs.length := by
  by_contra hle
  rw [bsTest, getD_oob bs i false (by omega)] at h
  exact Bool.noConfusion h

theorem bsAll_false_of_unset :
    ∀ (bs : List Bool) (i : Nat), i < bs.length → bs.getD i false = false →
      bsAll bs = false := by
  intro bs
  induction bs with
  | nil => intro i h; simp at h
  | cons b t ih =>
    intro i h hfree
    cases i with
    | zero =>
      rw [getD_cons_zero] at hfree
      simp [bsAll, hfree]
    | succ i' =>
      rw [getD_cons_succ] at hfree
      have ht := ih i' (by simpa using h) hfree
      simp only [bsAll, List.all_cons, id] at ht ⊢
      simp [ht]

theorem findFreeAux_none (st : PoolState) :
    ∀ (n lo : Nat), (∀ j, lo ≤ j → j < lo + n → bsTest st.bs_used j = true) →
      findFreeAux st lo n = none := by
  intro n
  induction n with
  | zero => intro lo _; rfl
  | succ n ih =>
    intro lo h
    have hb : bsTest st.bs_used lo = true := h lo (Nat.le_refl lo) (by omega)
    show (if bsTest st.bs_used lo = false then some lo else findFreeAux st (lo + 1) n)
      = none
    rw [hb]
    simp only [Bool.true_eq_false, if_false]
    exact ih (lo + 1) (fun j h1 h2 => h j (by omega) (by omega))

theorem findFreeAux_first (st : PoolState) :
    ∀ (n lo i : Nat), lo ≤ i → i < lo + n → bsTest st.bs_used i = false →
      (∀ j, lo ≤ j → j < i → bsTest st.bs_used j = true) →
      findFreeAux st lo n = some i := by
  intro n
  induction n with
  | zero => intro lo i h1 h2 _ _; omega
  | succ n ih =>
    intro lo i h1 h2 hfree hprev
    show (if bsTest st.bs_used lo = false then some lo else findFreeAux st (lo + 1) n)
      = some i
    by_cases hlo : lo = i
    · subst hlo
      rw [if_pos hfree]
    · have hb : bsTest st.bs_used lo = true := hprev lo (Nat.le_refl lo) (by omega)
      rw [hb]
      simp only [Bool.true_eq_false, if_false]
      exact ih (lo + 1) i (by omega) (by omega) hfree
        (fun j hj1 hj2 => hprev j (by omega) hj2)

/-! Frame and pointwise facts about the small pool helpers. -/

theorem mark_as_free_frame (st : PoolState) (i : Nat) :
    (mark_as_free st i).pool_max_size = st.pool_max_size ∧
    (mark_as_free st i).pool_initial_size = st.pool_initial_size ∧
    (mark_as_free st i).v_connections = st.v_connections ∧
    (mark_as_free st i).cfg = st.cfg ∧
    (mark_as_free st i).ca_path = st.ca_path ∧
    (mark_as_free st i).bind_dn = st.bind_dn ∧
    (mark_as_free st i).bind_pwd = st.bind_pwd ∧
    (mark_as_free st i).group_role_mapping = st.group_role_mapping ∧
    (mark_as_free st i).bs_used.length = st.bs_used.length := by
  unfold mark_as_free
  split <;> simp

theorem bsTest_mark_as_free_self (st : PoolState) (i : Nat) :
    bsTest (mark_as_free st i).bs_used i = false := by
  unfold mark_as_free bsTest
  split
  · exact getD_set_self st.bs_used i false false (by omega)
  · exact getD_oob st.bs_used i false (by omega)

theorem bsTest_mark_as_free_ne (st : PoolState) (i j : Nat) (h : i ≠ j) :
    bsTest (mark_as_free st i).bs_used j = bsTest st.bs_used j := by
  unfold mark_as_free bsTest
  split
  · exact getD_set_ne st.bs_used i j false false h
  · rfl

/-! Characterisation of the zombie-control sweep. -/

theorem zombieStep_frame (i : Nat) (st : PoolState) :
    (zombieStep i st).pool_max_size = st.pool_max_size ∧
    (zombieStep i st).pool_initial_size = st.pool_initial_size ∧
    (zombieStep i st).cfg = st.cfg ∧
    (zombieStep i st).ca_path = st.ca_path ∧
    (zombieStep i st).bind_dn = st.bind_dn ∧
    (zombieStep i st).bind_pwd = st.bind_pwd ∧
    (zombieStep i st).group_role_mapping = st.group_role_mapping := by
  unfold zombieStep mark_as_free
  split
  · split <;> simp
  · simp

theorem zombieStep_len_bs (i : Nat) (st : PoolState) :
    (zombieStep i st).bs_used.length = st.bs_used.length := by
  unfold zombieStep mark_as_free
  split
  · split <;> simp
  · rfl

theorem zombieStep_len_v (i : Nat) (st : PoolState) :
    (zombieStep i st).v_connections.length = st.v_connections.length := by
  unfold zombieStep mark_as_free
  split
  · split <;> simp [length_listModify]
  · rfl

theorem zombieStep_other (i : Nat) (st : PoolState) (j : Nat) (hij : j ≠ i) :
    bsTest (zombieStep i st).bs_used j = bsTest st.bs_used j ∧
    connAt (zombieStep i st) j = connAt st j := by
  unfold zombieStep
  split
  · constructor
    · unfold mark_as_free bsTest
      split
      · exact getD_set_ne st.bs_used i j false false (fun h => hij h.symm)
      · rfl
    · unfold mark_as_free connAt
      split <;>
        exact getD_listModify_ne conn_mark_as_free st.v_connections i j
          defaultConnection (fun h => hij h.symm)
  · exact ⟨rfl, rfl⟩

theorem zombieStep_self (i : Nat) (st : PoolState) :
    bsTest (zombieStep i st).bs_used i = (bsTest st.bs_used i && !(connAt st i).zombie) ∧
    connAt (zombieStep i st) i =
      (if bsTest st.bs_used i && (connAt st i).zombie then conn_mark_as_free (connAt st i)
       else connAt st i) := by
  by_cases hc : (bsTest st.bs_used i && (connAt st i).zombie) = true
  · have hc2 := hc
    rw [Bool.and_eq_true] at hc2
    obtain ⟨hb, hz⟩ := hc2
    have hvlen : i < st.v_connections.length := by
      by_contra hcon
      have hdef : connAt st i = defaultConnection := by
        unfold connAt
        exact getD_oob st.v_connections i defaultConnection (by omega)
      rw [hdef] at hz
      exact absurd hz (by decide)
    have hstep : zombieStep i st =
        mark_as_free
          { st with v_connections := listModify conn_mark_as_free i st.v_connections }
          i := by
      unfold zombieStep
      rw [if_pos hc]
    rw [hstep]
    constructor
    · rw [bsTest_mark_as_free_self, hb, hz]
      rfl
    · rw [if_pos hc]
      unfold connAt
      rw [(mark_as_free_frame _ i).2.2.1]
      exact getD_listModify_self conn_mark_as_free st.v_connections i
        defaultConnection hvlen
  · have hstep : zombieStep i st = st := by
      unfold zombieStep
      rw [if_neg hc]
    rw [hstep]
    constructor
    · cases hb : bsTest st.bs_used i
      · rfl
      · have hz : (connAt st i).zombie = false := by
          cases hz2 : (connAt st i).zombie
          · rfl
          · exact absurd (by rw [Bool.and_eq_true]; exact ⟨hb, hz2⟩) hc
        rw [hz]
        rfl
    · rw [if_neg hc]

theorem zombieAux_frame :
    ∀ (n lo : Nat) (st : PoolState),
      (forRangeAux zombieStep lo n st).pool_max_size = st.pool_max_size ∧
      (forRangeAux zombieStep lo n st).pool_initial_size = st.pool_initial_size ∧
      (forRangeAux zombieStep lo n st).cfg = st.cfg ∧
      (forRangeAux zombieStep lo n st).ca_path = st.ca_path ∧
      (forRangeAux zombieStep lo n st).bind_dn = st.bind_dn ∧
      (forRangeAux zombieStep lo n st).bind_pwd = st.bind_pwd ∧
      (forRangeAux zombieStep lo n st).group_role_mapping = st.group_role_mapping := by
  intro n
  induction n with
  | zero => intro lo st; exact ⟨rfl, rfl, rfl, rfl, rfl, rfl, rfl⟩
  | succ n ih =>
    intro lo st
    have h1 := ih (lo + 1) (zombieStep lo st)
    have h2 := zombieStep_frame lo st
    show (forRangeAux zombieStep (lo + 1) n (zombieStep lo st)).pool_max_size = _ ∧ _
    exact ⟨h1.1.trans h2.1, (h1.2.1).trans h2.2.1, (h1.2.2.1).trans h2.2.2.1,
      (h1.2.2.2.1).trans h2.2.2.2.1, (h1.2.2.2.2.1).trans h2.2.2.2.2.1,
      (h1.2.2.2.2.2.1).trans h2.2.2.2.2.2.1, (h1.2.2.2.2.2.2).trans h2.2.2.2.2.2.2⟩

theorem zombieAux_len :
    ∀ (n lo : Nat) (st : PoolState),
      (forRangeAux zombieStep lo n st).bs_used.length = st.bs_used.length ∧
      (forRangeAux zombieStep lo n st).v_connections.length
        = st.v_connections.length := by
  intro n
  induction n with
  | zero => intro lo st; exact ⟨rfl, rfl⟩
  | succ n ih =>
    intro lo st
    have h1 := ih (lo + 1) (zombieStep lo st)
    show (forRangeAux zombieStep (lo + 1) n (zombieStep lo st)).bs_used.length = _ ∧ _
    exact ⟨h1.1.trans (zombieStep_len_bs lo st),
      h1.2.trans (zombieStep_len_v lo st)⟩

theorem zombieAux_out :
    ∀ (n lo : Nat) (st : PoolState) (j : Nat), j < lo ∨ lo + n ≤ j →
      bsTest (forRangeAux zombieStep lo n st).bs_used j = bsTest st.bs_used j ∧
      connAt (forRangeAux zombieStep lo n st) j = connAt st j := by
  intro n
  induction n with
  | zero => intro lo st j _; exact ⟨rfl, rfl⟩
  | succ n ih =>
    intro lo st j hj
    have hne : j ≠ lo := by omega
    have h1 := ih (lo + 1) (zombieStep lo st) j (by omega)
    have h2 := zombieStep_other lo st j hne
    show bsTest (forRangeAux zombieStep (lo + 1) n (zombieStep lo st)).bs_used j = _ ∧ _
    exact ⟨h1.1.trans h2.1, h1.2.trans h2.2⟩

theorem zombieAux_in :
    ∀ (n lo : Nat) (st : PoolState) (j : Nat), lo ≤ j → j < lo + n →
      bsTest (forRangeAux zombieStep lo n st).bs_used j
        = (bsTest st.bs_used j && !(connAt st j).zombie) ∧
      connAt (forRangeAux zombieStep lo n st) j
        = (if bsTest st.bs_used j && (connAt st j).zombie
           then conn_mark_as_free (connAt st j) else connAt st j) := by
  intro n
  induction n with
  | zero => intro lo st j h1 h2; omega
  | succ n ih =>
    intro lo st j h1 h2
    show bsTest (forRangeAux zombieStep (lo + 1) n (zombieStep lo st)).bs_used j = _ ∧ _
    by_cases hj : j = lo
    · subst hj
      have hout := zombieAux_out n (j + 1) (zombieStep j st) j (by omega)
      have hself := zombieStep_self j st
      exact ⟨hout.1.trans hself.1, hout.2.trans hself.2⟩
    · have hother := zombieStep_other lo st j (fun h => hj h)
      have hin := ih (lo + 1) (zombieStep lo st) j (by omega) (by omega)
      rw [hother.1, hother.2] at hin
      exact hin

theorem zombie_control_frame (st : PoolState) :
    (zombie_control st).pool_max_size = st.pool_max_size ∧
    (zombie_control st).pool_initial_size = st.pool_initial_size ∧
    (zombie_control st).cfg = st.cfg ∧
    (zombie_control st).ca_path = st.ca_path ∧
    (zombie_control st).bind_dn = st.bind_dn ∧
    (zombie_control st).bind_pwd = st.bind_pwd ∧
    (zombie_control st).group_role_mapping = st.group_role_mapping :=
  zombieAux_frame st.pool_max_size 0 st

theorem zombie_control_len (st : PoolState) :
    (zombie_control st).bs_used.length = st.bs_used.length ∧
    (zombie_control st).v_connections.length = st.v_connections.length :=
  zombieAux_len st.pool_max_size 0 st

theorem zombie_control_in (st : PoolState) (j : Nat) (h : j < st.pool_max_size) :
    bsTest (zombie_control st).bs_used j
      = (bsTest st.bs_used j && !(connAt st j).zombie) ∧
    connAt (zombie_control st) j
      = (if bsTest st.bs_used j && (connAt st j).zombie
         then conn_mark_as_free (connAt st j) else connAt st j) :=
  zombieAux_in st.pool_max_size 0 st j (Nat.zero_le j) (by omega)

theorem zombie_control_out (st : PoolState) (j : Nat) (h : st.pool_max_size ≤ j) :
    bsTest (zombie_control st).bs_used j = bsTest st.bs_used j ∧
    connAt (zombie_control st) j = connAt st j :=
  zombieAux_out st.pool_max_size 0 st j (Or.inr (by omega))

/-! Facts about borrow_connection and return_connection. -/

theorem mark_as_busy_frame (st : PoolState) (i : Nat) :
    (mark_as_busy st i).pool_max_size = st.pool_max_size ∧
    (mark_as_busy st i).v_connections = st.v_connections ∧
    (mark_as_busy st i).bs_used.length = st.bs_used.length := by
  unfold mark_as_busy
  simp

theorem find_first_free_none (st : PoolState)
    (h : ∀ j, j < st.pool_max_size → bsTest st.bs_used j = true) :
    find_first_free st = none := by
  unfold find_first_free
  cases hall : bsAll st.bs_used
  · simp only [Bool.false_eq_true, if_false]
    exact findFreeAux_none st st.pool_max_size 0 (fun j _ h2 => h j (by omega))
  · rfl

theorem find_first_free_some (st : PoolState) (i : Nat)
    (hlen : st.bs_used.length = st.pool_max_size)
    (hi : i < st.pool_max_size)
    (hfree : bsTest st.bs_used i = false)
    (hprev : ∀ j, j < i → bsTest st.bs_used j = true) :
    find_first_free st = some i := by
  unfold find_first_free
  rw [bsAll_false_of_unset st.bs_used i (by omega) hfree]
  simp only [Bool.false_eq_true, if_false]
  exact findFreeAux_first st st.pool_max_size 0 i (Nat.zero_le i) (by omega) hfree
    (fun j _ hj => hprev j hj)

theorem borrow_of_find_none (st : PoolState) (d ok : Bool)
    (h : find_first_free st = none) : borrow_connection st d ok = (st, none) := by
  unfold borrow_connection
  rw [h]

theorem borrow_of_find_some_fail (st : PoolState) (i : Nat)
    (h : find_first_free st = some i) :
    borrow_connection st true false = (mark_as_free (mark_as_busy st i) i, none) := by
  unfold borrow_connection
  rw [h]
  rfl

theorem borrow_of_find_some_succ (st : PoolState) (i : Nat) (d ok : Bool)
    (h : find_first_free st = some i) (hg : (d && !ok) = false) :
    borrow_connection st d ok =
      ({ mark_as_busy st i with
          v_connections :=
            listModify conn_mark_as_busy i (mark_as_busy st i).v_connections },
       some (conn_mark_as_busy (connAt (mark_as_busy st i) i))) := by
  unfold borrow_connection
  rw [h]
  show (match get_connection (mark_as_busy st i) i d ok with
        | (st2, none) => (mark_as_free st2 i, none)
        | (st2, some c) => (st2, some c)) = _
  unfold get_connection
  rw [hg]
  rfl

theorem busy_then_free (st : PoolState) (i : Nat)
    (hfree : st.bs_used.getD i false = false) (hlen : i < st.bs_used.length) :
    mark_as_free (mark_as_busy st i) i = st := by
  unfold mark_as_busy mark_as_free
  rw [if_pos (by simpa using hlen)]
  rw [set_set_same, set_false_getD_false st.bs_used i hfree]

theorem return_snipped_eq (st : PoolState) (conn : Connection)
    (h : conn.snipped = true) : return_connection st conn = (st, false) := by
  unfold return_connection
  rw [if_pos h]

theorem return_not_snipped_eq (st : PoolState) (conn : Connection)
    (h : conn.snipped = false) :
    return_connection st conn =
      (mark_as_free
        { st with
          v_connections := listModify conn_mark_as_free conn.idx_pool st.v_connections }
        conn.idx_pool,
       decide (zombieThreshold
         (mark_as_free
           { st with
             v_connections :=
               listModify conn_mark_as_free conn.idx_pool st.v_connections }
           conn.idx_pool).pool_max_size ≤
         bsCount
           (mark_as_free
             { st with
               v_connections :=
                 listModify conn_mark_as_free conn.idx_pool st.v_connections }
             conn.idx_pool).bs_used)) := by
  unfold return_connection
  rw [if_neg (by rw [h]; exact Bool.false_ne_true)]

/-! Preservation of the structural pool invariant by every operation. -/

theorem borrow_preserves (st : PoolState) (d ok : Bool) :
    (borrow_connection st d ok).1.pool_max_size = st.pool_max_size ∧
    (borrow_connection st d ok).1.bs_used.length = st.bs_used.length ∧
    (borrow_connection st d ok).1.v_connections.length = st.v_connections.length := by
  cases hf : find_first_free st
  · rw [borrow_of_find_none st d ok hf]
    exact ⟨rfl, rfl, rfl⟩
  case some i =>
    unfold borrow_connection
    rw [hf]
    show ((match get_connection (mark_as_busy st i) i d ok with
          | (st2, none) => (mark_as_free st2 i, none)
          | (st2, some c) => (st2, some c)) : PoolState × Option Connection).1.pool_max_size
          = _ ∧ _
    unfold get_connection
    cases hg : (d && !ok)
    · show ({ mark_as_busy st i with
          v_connections :=
            listModify conn_mark_as_busy i (mark_as_busy st i).v_connections
          }).pool_max_size = _ ∧ _
      refine ⟨rfl, ?_, ?_⟩
      · show (st.bs_used.set i true).length = st.bs_used.length
        exact List.length_set st.bs_used i true
      · show (listModify conn_mark_as_busy i st.v_connections).length
          = st.v_connections.length
        exact length_listModify conn_mark_as_busy i st.v_connections
    · have h1 := mark_as_free_frame (mark_as_busy st i) i
      have h2 := mark_as_busy_frame st i
      refine ⟨?_, ?_, ?_⟩
      · show (mark_as_free (mark_as_busy st i) i).pool_max_size = st.pool_max_size
        exact h1.1.trans h2.1
      · show (mark_as_free (mark_as_busy st i) i).bs_used.length = st.bs_used.length
        exact (h1.2.2.2.2.2.2.2.2).trans h2.2.2
      · show (mark_as_free (mark_as_busy st i) i).v_connections.length
          = st.v_connections.length
        rw [h1.2.2.1, h2.2.1]

theorem return_preserves (st : PoolState) (conn : Connection) :
    (return_connection st conn).1.pool_max_size = st.pool_max_size ∧
    (return_connection st conn).1.bs_used.length = st.bs_used.length ∧
    (return_connection st conn).1.v_connections.length = st.v_connections.length := by
  cases hs : conn.snipped
  · rw [return_not_snipped_eq st conn hs]
    have h1 := mark_as_free_frame
      { st with
        v_connections := listModify conn_mark_as_free conn.idx_pool st.v_connections }
      conn.idx_pool
    refine ⟨h1.1, h1.2.2.2.2.2.2.2.2.trans rfl, ?_⟩
    rw [h1.2.2.1]
    exact length_listModify conn_mark_as_free conn.idx_pool st.v_connections
  · rw [return_snipped_eq st conn hs]
    exact ⟨rfl, rfl, rfl⟩

theorem reconfigure_inv (st : PoolState) (ni nm : Nat) (c : LdapConfig)
    (ca dn pw : String) (h : poolInv st) :
    poolInv (reconfigure st ni nm c ca dn pw) := by
  obtain ⟨h1, h2⟩ := h
  have hzl := zombie_control_len st
  have hzf := zombie_control_frame st
  unfold reconfigure poolInv
  simp only []
  constructor
  · -- bitset length
    split
    · exact length_listResize (zombie_control st).bs_used nm false
    · show (zombie_control st).bs_used.length = (zombie_control st).pool_max_size
      rw [hzl.1, hzf.1, h1]
  · -- vector length: the final configure pass preserves length
    rw [forRangeAux_modify_length]
    split
    · simp only []
      split
      · show (forRangeAux _ (zombie_control st).pool_max_size _
          (listResize _ nm defaultConnection)).length = nm
        rw [forRangeAux_set_length, length_listResize]
      · split
        · show (listResize (markSnippedRange nm (zombie_control st).pool_max_size
            (zombie_control st).v_connections) nm defaultConnection).length = nm
          exact length_listResize _ nm defaultConnection
        · show (listResize (zombie_control st).v_connections nm
            defaultConnection).length = nm
          exact length_listResize _ nm defaultConnection
    · show (zombie_control st).v_connections.length = (zombie_control st).pool_max_size
      rw [hzl.2, hzf.1, h2]

theorem mkPool_inv (ini m : Nat) (c : LdapConfig) (ca dn pw : String) :
    poolInv (mkPool ini m c ca dn pw) := by
  constructor <;> simp [mkPool, poolInv]

theorem applyOp_inv (st : PoolState) (op : PoolOp) (h : poolInv st) :
    poolInv (applyOp st op) := by
  cases op with
  | borrow d ok =>
    have hp := borrow_preserves st d ok
    exact ⟨hp.2.1.trans (h.1.trans hp.1.symm), hp.2.2.trans (h.2.trans hp.1.symm)⟩
  | ret c =>
    have hp := return_preserves st c
    exact ⟨hp.2.1.trans (h.1.trans hp.1.symm), hp.2.2.trans (h.2.trans hp.1.symm)⟩
  | reconfig ni nm c ca dn pw => exact reconfigure_inv st ni nm c ca dn pw h
  | zombie =>
    have hl := zombie_control_len st
    have hf := zombie_control_frame st
    exact ⟨hl.1.trans (h.1.trans hf.1.symm), hl.2.trans (h.2.trans hf.1.symm)⟩

theorem applyOps_inv (st : PoolState) (ops : List PoolOp) (h : poolInv st) :
    poolInv (applyOps st ops) := by
  induction ops generalizing st with
  | nil => exact h
  | cons op rest ih => exact ih (applyOp st op) (applyOp_inv st op h)

theorem bsCount_le_length : ∀ bs : List Bool, bsCount bs ≤ bs.length := by
  intro bs
  induction bs with
  | nil => exact Nat.le_refl 0
  | cons b t ih =>
    unfold bsCount at ih ⊢
    rw [List.count_cons]
    simp only [List.length_cons]
    by_cases hb : b = true <;> simp [hb] <;> omega

/-! Facts about the role-mapping parser. -/

theorem splitOnChar_no_sep (sep : Char) :
    ∀ (cs : List Char), sep ∉ cs → splitOnChar sep cs = [cs] := by
  intro cs
  induction cs with
  | nil => intro _; rfl
  | cons c t ih =>
    intro h
    have hc : c ≠ sep := fun hcc => h (hcc ▸ List.mem_cons_self c t)
    have ht : sep ∉ t := fun hm => h (List.mem_cons_of_mem c hm)
    unfold splitOnChar
    rw [ih ht]
    simp only []
    rw [if_neg hc]

/-! The claims. -/

/-- C5: mark_as_free on an index at or beyond the current bitset length is a
no-op (out-of-range frees are defensively ignored), so return_connection of a
non-snipped handle whose stored slot index is at or beyond the current
capacity after a shrink leaves the used bitmap unchanged and never accesses it
out of range. -/
theorem c5_out_of_range_free_ignored (st : PoolState) (idx : Nat)
    (h : st.bs_used.length ≤ idx) :
    mark_as_free st idx = st ∧
    (∀ conn : Connection, conn.snipped = false → conn.idx_pool = idx →
      ((return_connection st conn).1).bs_used = st.bs_used) := by
  have hm : mark_as_free st idx = st := by
    unfold mark_as_free
    rw [if_neg (by omega)]
  refine ⟨hm, ?_⟩
  intro conn hs hidx
  rw [return_not_snipped_eq st conn hs]
  show (mark_as_free
      { st with
        v_connections := listModify conn_mark_as_free conn.idx_pool st.v_connections }
      conn.idx_pool).bs_used = st.bs_used
  unfold mark_as_free
  rw [if_neg (by simp only []; omega)]

/-- C6: returning a snipped handle drops it without touching any pool
bookkeeping: the used bitmap, slot vector, capacity and stored configuration
are all left exactly as they were, and no reclamation sweep is triggered on
this path (second component false). -/
theorem c6_snipped_return_frame (st : PoolState) (conn : Connection)
    (h : conn.snipped = true) : return_connection st conn = (st, false) :=
  return_snipped_eq st conn h

/-- C8: zombie_control clears the used bit and marks the handle free for
exactly the slots below capacity that are busy and whose handle reports
zombie; every other slot's bit and handle, including everything at or beyond
capacity, is unchanged. -/
theorem c8_zombie_control_exact (st : PoolState) :
    (∀ i, i < st.pool_max_size →
      bsTest (zombie_control st).bs_used i
        = (bsTest st.bs_used i && !(connAt st i).zombie) ∧
      connAt (zombie_control st) i =
        (if bsTest st.bs_used i && (connAt st i).zombie
         then conn_mark_as_free (connAt st i) else connAt st i)) ∧
    (∀ j, st.pool_max_size ≤ j →
      bsTest (zombie_control st).bs_used j = bsTest st.bs_used j ∧
      connAt (zombie_control st) j = connAt st j) :=
  ⟨fun i hi => zombie_control_in st i hi, fun j hj => zombie_control_out st j hj⟩

/-- C9: for a non-snipped return, the detached reclamation sweep is triggered
exactly when the occupancy measured after the handle's bit has been freed is
at least ninety percent of capacity, that is at least
ceil(pool_max_size * 0.9) — stated as the equivalent integer inequality
9 * max_size ≤ 10 * count. -/
theorem c9_sweep_threshold (st : PoolState) (conn : Connection)
    (h : conn.snipped = false) :
    ((return_connection st conn).2 = true ↔
      9 * st.pool_max_size ≤ 10 * bsCount ((return_connection st conn).1).bs_used) := by
  rw [return_not_snipped_eq st conn h]
  simp only []
  have hmax :
      (mark_as_free
        { st with
          v_connections := listModify conn_mark_as_free conn.idx_pool st.v_connections }
        conn.idx_pool).pool_max_size = st.pool_max_size :=
    (mark_as_free_frame _ conn.idx_pool).1
  show decide _ = true ↔ _
  rw [decide_eq_true_eq, hmax]
  unfold zombieThreshold
  omega

/-- C10: parsing the empty mapping string does not give the empty mapping: the
empty input splits into one bare empty entry, so the result is exactly the
singleton mapping of the empty group name to itself. -/
theorem c10_empty_mapping_singleton :
    reset_group_role_mapping (r"") = [((r""), (r""))] ∧
    reset_group_role_mapping (r"") ≠ [] := by
  constructor <;> decide

/-- C7, counterexample: the claim says every entry is split on the FIRST
equals sign, but boost::algorithm::split cuts at every equals sign and the
code then uses only the first two fields, so on the entry a=b=c the code maps
a to b while the claim maps a to b=c. -/
theorem c7_counterexample :
    reset_group_role_mapping (r"a=b=c") ≠ resetGroupRoleMappingSpecFirst (r"a=b=c") := by
  decide

/-- C7, amended: entries are split on every equals sign and only the first
two fields are used (group := field 0, role := field 1, any text after a
second equals sign is discarded); a bare entry maps to itself; in particular
the mapping a=1,b=2,c gives exactly a:1, b:2, c:c while a=b=c gives a:b. -/
theorem c7_split_semantics_amended :
    reset_group_role_mapping (r"a=1,b=2,c")
      = [((r"a"), (r"1")), ((r"b"), (r"2")), ((r"c"), (r"c"))] ∧
    reset_group_role_mapping (r"a=b=c") = [((r"a"), (r"b"))] ∧
    (∀ s : String, '=' ∉ s.data → ',' ∉ s.data →
      reset_group_role_mapping s = [(s, s)]) := by
  refine ⟨by decide, by decide, ?_⟩
  intro s h1 h2
  have hmk : String.mk s.data = s := rfl
  unfold reset_group_role_mapping splitStr
  rw [splitOnChar_no_sep ',' s.data h2]
  simp only [List.map]
  rw [hmk]
  simp only [List.foldl]
  rw [splitOnChar_no_sep '=' s.data h1]
  simp only [List.map]
  rw [hmk]
  rw [if_pos (show [s].length = 1 from rfl)]
  rfl

/-- C1: borrow_connection linearly scans the slots below capacity and selects
the first one whose used bit is false (the lowest free index): on that state
find_first_free returns exactly that index and any handle the call returns is
that slot's handle; when every bit below capacity is set the call returns none
(the model is a total function, so it never blocks). -/
theorem c1_borrow_scans_lowest_free (st : PoolState) (d ok : Bool)
    (hlen : st.bs_used.length = st.pool_max_size) :
    ((∀ j, j < st.pool_max_size → bsTest st.bs_used j = true) →
      borrow_connection st d ok = (st, none)) ∧
    (∀ i, i < st.pool_max_size → bsTest st.bs_used i = false →
      (∀ j, j < i → bsTest st.bs_used j = true) →
      find_first_free st = some i ∧
      (∀ c, (borrow_connection st d ok).2 = some c →
        c = conn_mark_as_busy (connAt st i))) := by
  constructor
  · intro hall
    exact borrow_of_find_none st d ok (find_first_free_none st hall)
  · intro i hi hfree hprev
    have hf := find_first_free_some st i hlen hi hfree hprev
    refine ⟨hf, ?_⟩
    intro c hc
    cases hg : (d && !ok)
    · rw [borrow_of_find_some_succ st i d ok hf hg] at hc
      have hcc : some (conn_mark_as_busy (connAt (mark_as_busy st i) i)) = some c := hc
      rw [← Option.some.inj hcc]
      rfl
    · have hd : d = true ∧ ok = false := by
        cases d <;> cases ok <;> simp_all
      obtain ⟨hd1, hd2⟩ := hd
      subst hd1
      subst hd2
      rw [borrow_of_find_some_fail st i hf] at hc
      exact Option.noConfusion hc

/-- C2: when default_connect finds the free slot i, its bit is set busy before
the connect attempt; if the connect fails the bit is cleared again and the
call returns none with the whole pool state equal to the state before the
call, so a subsequent borrow selects the same index i. -/
theorem c2_failed_connect_restores_bitmap (st : PoolState) (i : Nat)
    (hlen : st.bs_used.length = st.pool_max_size)
    (hi : i < st.pool_max_size)
    (hfree : bsTest st.bs_used i = false)
    (hprev : ∀ j, j < i → bsTest st.bs_used j = true) :
    bsTest (mark_as_busy st i).bs_used i = true ∧
    borrow_connection st true false = (st, none) ∧
    find_first_free ((borrow_connection st true false).1) = some i := by
  have hf := find_first_free_some st i hlen hi hfree hprev
  have heq : borrow_connection st true false = (st, none) := by
    rw [borrow_of_find_some_fail st i hf, busy_then_free st i hfree (by omega)]
  refine ⟨?_, heq, ?_⟩
  · show (st.bs_used.set i true).getD i false = true
    exact getD_set_self st.bs_used i true false (by omega)
  · rw [heq]
    exact hf

/-- C3: construction establishes used.length = slots.length = max_size, every
pool operation (borrow, return, reconfigure, zombie_control) preserves it, and
along any operation sequence the number of set busy bits never exceeds
max_size (it is a natural number, hence never negative). -/
theorem c3_sizes_and_occupancy :
    (∀ (ini m : Nat) (c : LdapConfig) (ca dn pw : String),
      poolInv (mkPool ini m c ca dn pw)) ∧
    (∀ (st : PoolState) (ops : List PoolOp), poolInv st →
      poolInv (applyOps st ops) ∧
      bsCount (applyOps st ops).bs_used ≤ (applyOps st ops).pool_max_size) := by
  constructor
  · exact mkPool_inv
  · intro st ops h
    have hinv := applyOps_inv st ops h
    refine ⟨hinv, ?_⟩
    rw [← hinv.1]
    exact bsCount_le_length (applyOps st ops).bs_used

/-- C4: shrinking to nm < max_size marks exactly the slots with index in
[nm, max_size) snipped (lower slots are not newly snipped), truncates the used
bitmap and the slot vector to nm preserving the lower-index bits (as of the
forced pre-resize sweep, spec section 4.4 step 1) and entries, and changes no
surviving handle's immutable index or snipped flag. -/
theorem c4_shrink_snips_and_truncates (st : PoolState) (ni nm : Nat)
    (c : LdapConfig) (ca dn pw : String)
    (hinv : poolInv st) (hlt : nm < st.pool_max_size) :
    (∀ j, j < st.pool_max_size →
      (markSnippedRange nm st.pool_max_size (zombie_control st).v_connections).getD j
          defaultConnection =
        (if nm ≤ j then conn_mark_as_snipped (connAt (zombie_control st) j)
         else connAt (zombie_control st) j)) ∧
    (reconfigure st ni nm c ca dn pw).bs_used = (zombie_control st).bs_used.take nm ∧
    (reconfigure st ni nm c ca dn pw).pool_max_size = nm ∧
    (reconfigure st ni nm c ca dn pw).bs_used.length = nm ∧
    (reconfigure st ni nm c ca dn pw).v_connections.length = nm ∧
    (∀ j, j < nm →
      bsTest (reconfigure st ni nm c ca dn pw).bs_used j
        = bsTest (zombie_control st).bs_used j) ∧
    (∀ j, j < nm →
      (connAt (reconfigure st ni nm c ca dn pw) j).idx_pool
        = (connAt st j).idx_pool ∧
      (connAt (reconfigure st ni nm c ca dn pw) j).snipped
        = (connAt st j).snipped) := by
  obtain ⟨hb1, hv1⟩ := hinv
  have hzf := zombie_control_frame st
  have hzl := zombie_control_len st
  have hmax1 : (zombie_control st).pool_max_size = st.pool_max_size := hzf.1
  have hblen1 : (zombie_control st).bs_used.length = st.pool_max_size :=
    hzl.1.trans hb1
  have hvlen1 : (zombie_control st).v_connections.length = st.pool_max_size :=
    hzl.2.trans hv1
  have hne : nm ≠ (zombie_control st).pool_max_size := by omega
  have hlt1 : nm < (zombie_control st).pool_max_size := by omega
  have hngt : ¬((zombie_control st).pool_max_size < nm) := by omega
  have hbs : (reconfigure st ni nm c ca dn pw).bs_used
      = listResize (zombie_control st).bs_used nm false := by
    unfold reconfigure
    simp only []
    rw [if_pos hne]
  have hmax : (reconfigure st ni nm c ca dn pw).pool_max_size = nm := by
    unfold reconfigure
    simp only []
    rw [if_pos hne]
  have hv : (reconfigure st ni nm c ca dn pw).v_connections
      = forRangeAux (fun i w => listModify (fun cc => { cc with cfg := c }) i w) 0 nm
          (listResize
            (markSnippedRange nm (zombie_control st).pool_max_size
              (zombie_control st).v_connections)
            nm defaultConnection) := by
    unfold reconfigure
    simp only []
    rw [if_pos hne, if_pos hlt1, if_neg hngt]
  have hlenms : (markSnippedRange nm (zombie_control st).pool_max_size
      (zombie_control st).v_connections).length
      = (zombie_control st).v_connections.length := by
    unfold markSnippedRange
    exact forRangeAux_modify_length conn_mark_as_snipped _ _ _
  refine ⟨?_, ?_, hmax, ?_, ?_, ?_, ?_⟩
  · -- exactly [nm, max_size) marked snipped
    intro j hj
    unfold markSnippedRange
    rw [forRangeAux_modify_getD]
    by_cases hnm : nm ≤ j
    · rw [if_pos ⟨hnm, by omega, by omega⟩, if_pos hnm]
      rfl
    · rw [if_neg (fun hcond => hnm hcond.1), if_neg hnm]
      rfl
  · -- bitmap truncated
    rw [hbs]
    exact listResize_eq_take _ nm false (by omega)
  · -- bitmap length
    rw [hbs]
    exact length_listResize _ nm false
  · -- vector length
    rw [hv, forRangeAux_modify_length, length_listResize]
  · -- lower bits preserved across the truncation
    intro j hj
    rw [hbs]
    show (listResize (zombie_control st).bs_used nm false).getD j false = _
    exact getD_listResize_lt _ nm j false false hj (by omega)
  · -- surviving handles keep index and snipped flag
    intro j hj
    have hveq : connAt (reconfigure st ni nm c ca dn pw) j
        = { connAt (zombie_control st) j with cfg := c } := by
      unfold connAt
      rw [hv]
      rw [forRangeAux_modify_getD]
      rw [if_pos ⟨Nat.zero_le j, by omega, by rw [length_listResize]; omega⟩]
      rw [getD_listResize_lt _ nm j defaultConnection defaultConnection hj
        (by rw [hlenms]; omega)]
      unfold markSnippedRange
      rw [forRangeAux_modify_getD]
      rw [if_neg (fun hcond => absurd hcond.1 (by omega))]
    rw [hveq]
    have hin := (zombie_control_in st j (by omega)).2
    constructor
    · show (connAt (zombie_control st) j).idx_pool = (connAt st j).idx_pool
      rw [hin]
      by_cases hz : (bsTest st.bs_used j && (connAt st j).zombie) = true
      · rw [if_pos hz]
        rfl
      · rw [if_neg hz]
    · show (connAt (zombie_control st) j).snipped = (connAt st j).snipped
      rw [hin]
      by_cases hz : (bsTest st.bs_used j && (connAt st j).zombie) = true
      · rw [if_pos hz]
        rfl
      · rw [if_neg hz]

/-- Concrete instance of C1: borrowing from the full example pool returns
none, and the fresh example pool's first free index is 0. -/
theorem c1_witness :
    borrow_connection exPoolFull true true = (exPoolFull, none) ∧
    find_first_free exPool = some 0 :=
  ⟨(c1_borrow_scans_lowest_free exPoolFull true true (by decide)).1 (by decide),
   ((c1_borrow_scans_lowest_free exPool true true (by decide)).2 0 (by decide)
      (by decide) (by decide)).1⟩

/-- Concrete instance of C2 on the example pool at slot 0. -/
theorem c2_witness :
    bsTest (mark_as_busy exPool 0).bs_used 0 = true ∧
    borrow_connection exPool true false = (exPool, none) ∧
    find_first_free ((borrow_connection exPool true false).1) = some 0 :=
  c2_failed_connect_restores_bitmap exPool 0 (by decide) (by decide) (by decide)
    (by decide)

/-- Concrete instance of C3 on the example pool and operation sequence. -/
theorem c3_witness :
    poolInv (applyOps exPool exOps) ∧
    bsCount (applyOps exPool exOps).bs_used ≤ (applyOps exPool exOps).pool_max_size :=
  c3_sizes_and_occupancy.2 exPool exOps (by decide)

/-- Concrete instance of C4: shrinking the example pool from 2 to 1 keeps the
surviving slot 0 handle's index and snipped flag. -/
theorem c4_witness :
    (connAt (reconfigure exPool 1 1 exCfg (r"ca2") (r"dn2") (r"pw2")) 0).idx_pool
      = (connAt exPool 0).idx_pool ∧
    (connAt (reconfigure exPool 1 1 exCfg (r"ca2") (r"dn2") (r"pw2")) 0).snipped
      = (connAt exPool 0).snipped :=
  (c4_shrink_snips_and_truncates exPool 1 1 exCfg (r"ca2") (r"dn2") (r"pw2")
    (by decide) (by decide)).2.2.2.2.2.2 0 (by decide)

/-- Concrete instance of C5: freeing index 5 in the two-slot example pool is
ignored, also through return_connection. -/
theorem c5_witness :
    mark_as_free exPool 5 = exPool ∧
    ((return_connection exPool exConnFar).1).bs_used = exPool.bs_used :=
  ⟨(c5_out_of_range_free_ignored exPool 5 (by decide)).1,
   (c5_out_of_range_free_ignored exPool 5 (by decide)).2 exConnFar (by decide)
     (by decide)⟩

/-- Concrete instance of C6 on the example snipped handle. -/
theorem c6_witness :
    return_connection exPool exConnSnipped = (exPool, false) :=
  c6_snipped_return_frame exPool exConnSnipped (by decide)

/-- Concrete instance of C7's amended parsing behaviour on a bare entry. -/
theorem c7_witness :
    reset_group_role_mapping (r"admins") = [((r"admins"), (r"admins"))] :=
  c7_split_semantics_amended.2.2 (r"admins") (by decide) (by decide)

/-- Concrete instance of C8 on the example pool with a busy zombie slot 0. -/
theorem c8_witness :
    bsTest (zombie_control exPoolZ).bs_used 0
      = (bsTest exPoolZ.bs_used 0 && !(connAt exPoolZ 0).zombie) ∧
    connAt (zombie_control exPoolZ) 0 =
      (if bsTest exPoolZ.bs_used 0 && (connAt exPoolZ 0).zombie
       then conn_mark_as_free (connAt exPoolZ 0) else connAt exPoolZ 0) :=
  (c8_zombie_control_exact exPoolZ).1 0 (by decide)

/-- Concrete instance of C9: returning a far-indexed handle to the full
example pool leaves occupancy at capacity, and the trigger decision matches
the ninety percent threshold. -/
theorem c9_witness :
    ((return_connection exPoolFull exConnFar).2 = true ↔
      9 * exPoolFull.pool_max_size
        ≤ 10 * bsCount ((return_connection exPoolFull exConnFar).1).bs_used) :=
  c9_sweep_threshold exPoolFull exConnFar (by decide)

end AuthLdapPool
